import Mathlib

/-!
Verification development for the pdf-image-extractor repository.

The repository holds three desktop applications (PySimpleGUI in
`extract_images_gui.py`, Kivy in `main.py`, PyQt5 in `extractor_pro.py`),
each implementing the same extract → preview → select → save flow for
embedded images of a PDF file.

Shallow embedding conventions:
* Python byte strings are `List Nat`; Python text strings are `List Char`.
* A PDF document (as seen through the PyMuPDF library) is a list of pages,
  each page a list of image xrefs, together with the library's
  `extract_image` resolution from xref to raw encoded bytes.
* The filesystem is a log of directories and written files; a write oracle
  says which file writes succeed (a failing write models the raised
  `OSError`, which none of the three programs catches per file).
* Image decoding (PIL `Image.open`) is an oracle `decode` mapping bytes to
  an optional width/height; PIL's `Image.thumbnail` size computation is
  embedded over `ℚ` following PIL's algorithm.
-/

namespace PDFIE

/-- Python `bytes`: a sequence of byte values. -/
abbrev Bytes := List Nat

/-- Python `str`, modelled as its character sequence. -/
abbrev PyStr := List Char

/-- One record produced by the harvesters: `(page_number, image_index, raw_bytes)`
as appended in `extract_images_from_pdf` (extract_images_gui.py) and
`ExtractThread.run` (extractor_pro.py). Pages and in-page indices are 1-based. -/
structure ImgRec where
  page_number : Nat
  image_index : Nat
  raw_bytes : Bytes
deriving DecidableEq, Repr

/-- A PDF document as the programs observe it through PyMuPDF (`fitz`):
`pages` lists, per page in file order, the xrefs returned by
`page.get_images(full=True)` / `doc.get_page_images(page_num)`, and
`extract_image` is the library's xref resolution `doc.extract_image(xref)["image"]`. -/
structure PDFDoc where
  pages : List (List Nat)
  extract_image : Nat → Bytes

/-- Least-significant-first decimal digits, with explicit fuel so that the
function is structurally recursive (and hence evaluates inside the kernel). -/
def natDigitsRevAux : Nat → Nat → List Nat
  | 0, _ => []
  | fuel + 1, n => if n = 0 then [] else (n % 10) :: natDigitsRevAux fuel (n / 10)

/-- Least-significant-first decimal digits of `n`. -/
def pyDigits (n : Nat) : List Nat := natDigitsRevAux n n

/-- Decimal rendering of a natural number, the embedding of Python `str(n)`
(and of an f-string placeholder `{n}`): most significant digit first, no
leading zeros, `"0"` for zero. -/
def pyStr (n : Nat) : PyStr :=
  if n = 0 then ['0'] else ((pyDigits n).reverse.map Nat.digitChar)

/-- `extract_images_from_pdf` of extract_images_gui.py (lines 41–52):
walk pages in order, enumerate each page's images, resolve each xref,
and append `(page_idx+1, img_idx+1, bytes)`. -/
def extract_images_from_pdf (doc : PDFDoc) : List ImgRec :=
  doc.pages.enum.flatMap fun p =>
    p.2.enum.map fun im => ImgRec.mk (p.1 + 1) (im.1 + 1) (doc.extract_image im.2)

/-- `ExtractThread.run` of extractor_pro.py (lines 88–100): identical record
construction (`images.append((page_number+1, idx+1, base["image"]))`). -/
def ExtractThread.run (doc : PDFDoc) : List ImgRec :=
  doc.pages.enum.flatMap fun p =>
    p.2.enum.map fun im => ImgRec.mk (p.1 + 1) (im.1 + 1) (doc.extract_image im.2)

/-- Records of one page: helper describing the inner loop of the harvesters
for the page with 0-based position `k` and xref list `xs`. -/
def pageRecs (f : Nat → Bytes) (k : Nat) (xs : List Nat) : List ImgRec :=
  xs.enum.map fun im => ImgRec.mk (k + 1) (im.1 + 1) (f im.2)

/-- The harvesters' outer loop, generalized over the starting page position. -/
def harvestAux (f : Nat → Bytes) : Nat → List (List Nat) → List ImgRec
  | _, [] => []
  | k, xs :: rest => pageRecs f k xs ++ harvestAux f (k + 1) rest

/-- Filename built at extraction time by `PDFExtractor.extract_images`
(main.py line 72): `f"p{page_num + 1}_i{idx + 1}.png"`. -/
def kivyName (p i : Nat) : PyStr :=
  'p' :: pyStr p ++ '_' :: 'i' :: pyStr i ++ ['.', 'p', 'n', 'g']

/-- One tile of the Kivy variant (`ImageItem.__init__`, main.py lines 19–27):
raw bytes, label, and the checkbox state (a fresh `CheckBox` is inactive). -/
structure ImageItem where
  img_data : Bytes
  name : PyStr
  checkbox_active : Bool
deriving DecidableEq

/-- `PDFExtractor.extract_images` of main.py (lines 62–75): same double loop
as the other harvesters, but each record is stored as an `ImageItem` whose
label is `p{page}_i{idx}.png` and whose checkbox starts inactive. -/
def PDFExtractor.extract_images (doc : PDFDoc) : List ImageItem :=
  doc.pages.enum.flatMap fun p =>
    p.2.enum.map fun im =>
      ImageItem.mk (doc.extract_image im.2) (kivyName (p.1 + 1) (im.1 + 1)) false

/-- Export filename of the PySimpleGUI variant (extract_images_gui.py line 115):
`f"img_p{p}_i{i}.png"`. -/
def guiName (p i : Nat) : PyStr :=
  'i' :: 'm' :: 'g' :: '_' :: 'p' :: (pyStr p ++ '_' :: 'i' :: (pyStr i ++ ['.', 'p', 'n', 'g']))

/-- A directory path, as its list of path segments. -/
abbrev Dir := List PyStr

/-- Filesystem state: existing directories, and a log of file writes with the
newest first (so the head entry for a path is the file's current content;
a later write to the same path shadows an earlier one — last write wins). -/
structure FS where
  dirs : List Dir
  files : List (Dir × PyStr × Bytes)
deriving DecidableEq

/-- `open(os.path.join(d, f), "wb"); write(b)`: log the write. -/
def FS.writeFile (fs : FS) (d : Dir) (f : PyStr) (b : Bytes) : FS :=
  ⟨fs.dirs, (d, f, b) :: fs.files⟩

/-- Current content of the file at `d/f`: the newest write to that path. -/
def FS.readFile (fs : FS) (d : Dir) (f : PyStr) : Option Bytes :=
  (fs.files.find? (fun e => decide (e.1 = d ∧ e.2.1 = f))).map (fun e => e.2.2)

/-- All nonempty prefixes of a directory path: the directories that
`os.makedirs` guarantees to exist afterwards (intermediate segments included). -/
def dirPrefixes (d : Dir) : List Dir :=
  (List.range d.length).map (fun k => d.take (k + 1))

/-- `os.makedirs(d)` / `os.makedirs(d, exist_ok=True)`: the directory and all
its intermediate segments exist afterwards. -/
def FS.makedirs (fs : FS) (d : Dir) : FS :=
  ⟨dirPrefixes d ++ fs.dirs, fs.files⟩

/-- The shape shared by the three export loops: which entries are selected,
the filename an entry is written under, and the bytes written. -/
structure ExportSpec (α : Type) where
  sel : α → Bool
  fname : α → PyStr
  data : α → Bytes

/-- The common export loop: walk the entries in order; write each selected
entry's bytes under its filename into directory `out`, counting successes.
`wok` says which OS writes succeed; a failing write raises (none of the three
programs catches per-file errors), which aborts the loop with the filesystem
as it stands and no final count. -/
def exportLoop (wok : Dir → PyStr → Bool) (out : Dir) (es : ExportSpec α) :
    List α → FS → Nat → Except (FS × PyStr) (FS × Nat)
  | [], fs, count => .ok (fs, count)
  | a :: rest, fs, count =>
      if es.sel a then
        if wok out (es.fname a) then
          exportLoop wok out es rest (fs.writeFile out (es.fname a) (es.data a)) (count + 1)
        else .error (fs, es.fname a)
      else exportLoop wok out es rest fs count

/-- The file entries an export of `l` appends, oldest first. -/
def selWrites (out : Dir) (es : ExportSpec α) (l : List α) : List (Dir × PyStr × Bytes) :=
  (l.filter es.sel).map (fun a => (out, es.fname a, es.data a))

/-- Selection/filename/data projections of the PySimpleGUI `Download` handler
(extract_images_gui.py lines 110–119): it walks `checkbox_keys` — the
enumeration of the extracted list — and for each checked index writes
`images[idx]`'s bytes under `img_p{p}_i{i}.png`. -/
def guiSpec (sel : Nat → Bool) : ExportSpec (Nat × ImgRec) :=
  ⟨fun e => sel e.1, fun e => guiName e.2.page_number e.2.image_index,
    fun e => e.2.raw_bytes⟩

/-- The `Download` branch of `main` (extract_images_gui.py lines 110–120):
write every checked image, counting saves. -/
def gui_download (wok : Dir → PyStr → Bool) (out : Dir) (images : List ImgRec)
    (sel : Nat → Bool) (fs : FS) : Except (FS × PyStr) (FS × Nat) :=
  exportLoop wok out (guiSpec sel) images.enum fs 0

/-- Outcome of one `Load` (and, when images exist, the following `Download`)
pass of `main` in extract_images_gui.py: an error popup (`sg.popup_error`),
the `"No images found."` popup, or the final `"Done"` popup with a count. -/
inductive GuiOutcome
  | errPopup (fs : FS) (msg : PyStr)
  | noImagesPopup (fs : FS)
  | donePopup (fs : FS) (count : Nat)
deriving DecidableEq

/-- The `Load` event handler of `main` (extract_images_gui.py lines 91–120),
followed — when images were found — by the user checking boxes (`sel`) and
clicking `Download`. Mirrors the source order: argument checks, `os.path.isfile`
check, `os.makedirs(out, exist_ok=True)`, extraction, empty check, save loop.
`opn` is the outcome of `fitz.open`; an exception from it or from a file write
is caught only by the outer `except` and surfaced as an error popup. -/
def gui_main (wok : Dir → PyStr → Bool) (pdf : PyStr) (isfile : Bool)
    (opn : Except PyStr PDFDoc) (out : Dir) (sel : Nat → Bool) (fs : FS) : GuiOutcome :=
  if pdf = [] ∨ out = [] then
    .errPopup fs ( "Both PDF and output folder are required!".toList)
  else if ¬ isfile then .errPopup fs ( "PDF not found!".toList)
  else
    match opn with
    | .error e => .errPopup fs ( "Unexpected error: ".toList ++ e)
    | .ok doc =>
        let fs1 := fs.makedirs out
        let images := extract_images_from_pdf doc
        if images = [] then .noImagesPopup fs1
        else
          match gui_download wok out images sel fs1 with
          | .ok (fs2, count) => .donePopup fs2 count
          | .error (fs2, fname) =>
              .errPopup fs2 ( "Unexpected error: ".toList ++ fname)

/-- Selection/filename/data projections of the Kivy save loop
(main.py lines 90–94): checked items are written under their stored `name`. -/
def kivySpec : ExportSpec ImageItem :=
  ⟨fun it => it.checkbox_active, fun it => it.name, fun it => it.img_data⟩

/-- `PDFExtractor._do_save` of main.py (lines 86–97): create the directory if
missing (`os.makedirs(folder)` behind an `os.path.exists` guard), then write
every checked item's bytes under its name, counting saves. The loop body reads
`item.checkbox_active`, `item.name`, `item.img_data` and assigns no field, so
the session after the loop is each item carried through unchanged; the
returned list makes that explicit. -/
def PDFExtractor._do_save (wok : Dir → PyStr → Bool) (folder : Dir)
    (extracted : List ImageItem) (fs : FS) :
    Except (FS × PyStr) (FS × List ImageItem × Nat) :=
  match exportLoop wok folder kivySpec extracted
      (if folder ∈ fs.dirs then fs else fs.makedirs folder) 0 with
  | .ok (fs2, count) =>
      .ok (fs2, extracted.map (fun it => ImageItem.mk it.img_data it.name it.checkbox_active),
        count)
  | .error e => .error e

/-- One entry of `MainApp.thumbs` (extractor_pro.py line 231): the checkbox
(its checked state and its label text) and the record's raw bytes. -/
structure Thumb where
  checked : Bool
  text : PyStr
  data : Bytes
deriving DecidableEq

/-- Checkbox label from `display_thumbs` (extractor_pro.py line 224):
`f"P{page}-I{idx}"`. -/
def proLabel (p i : Nat) : PyStr := 'P' :: pyStr p ++ '-' :: 'I' :: pyStr i

/-- `MainApp.display_thumbs` (extractor_pro.py lines 214–236), restricted to
the data it stores: one `(chk, data)` pair per harvested record, the checkbox
labelled `P{page}-I{idx}` and initially unchecked. -/
def display_thumbs (images : List ImgRec) : List Thumb :=
  images.map fun r => Thumb.mk false (proLabel r.page_number r.image_index) r.raw_bytes

/-- Python `str.split(sep)` (as used on the checkbox text): split on every
occurrence of the separator; adjacent separators yield empty groups. -/
def pySplit (sep : Char) : PyStr → List PyStr
  | [] => [[]]
  | c :: rest =>
      if c = sep then [] :: pySplit sep rest
      else
        match pySplit sep rest with
        | [] => [[c]]
        | g :: gs => (c :: g) :: gs

/-- Python `str.format(page=..., idx=...)` for the naming patterns of
extractor_pro.py: substitute the two replacement fields the program uses,
copy every other character. -/
def pyFormat (page idx : PyStr) : PyStr → PyStr
  | '\x7b' :: 'p' :: 'a' :: 'g' :: 'e' :: '\x7d' :: rest => page ++ pyFormat page idx rest
  | '\x7b' :: 'i' :: 'd' :: 'x' :: '\x7d' :: rest => idx ++ pyFormat page idx rest
  | c :: rest => c :: pyFormat page idx rest
  | [] => []

/-- The default filename pattern of the Qt variant, set both in
`MainApp._init_ui` (extractor_pro.py line 198) and in the settings dialog
(line 111): `img_P{page}_I{idx}.png`. -/
def proDefaultPattern : PyStr :=
  "img_P\x7bpage\x7d_I\x7bidx\x7d.png".toList

/-- Filename computation of `MainApp.export_selected` (extractor_pro.py
line 255): `pattern.format(page=chk.text().split('-')[0][1:],
idx=chk.text().split('-')[1][1:])`. -/
def proFname (pattern : PyStr) (t : Thumb) : PyStr :=
  pyFormat (((pySplit '-' t.text).getD 0 []).drop 1)
    (((pySplit '-' t.text).getD 1 []).drop 1) pattern

/-- Selection/filename/data projections of `MainApp.export_selected`. -/
def proSpec (pattern : PyStr) : ExportSpec Thumb :=
  ⟨fun t => t.checked, fun t => proFname pattern t, fun t => t.data⟩

/-- `MainApp.export_selected` (extractor_pro.py lines 246–259), after a
directory has been chosen (`QFileDialog.getExistingDirectory` offers existing
directories; the function performs no directory creation): count the checked
thumbs (`total`), write each checked thumb's bytes under its formatted name,
and log `Exported {count}/{total}` at the end. -/
def MainApp.export_selected (wok : Dir → PyStr → Bool) (out : Dir) (pattern : PyStr)
    (thumbs : List Thumb) (fs : FS) : Except (FS × PyStr) (FS × Nat × Nat) :=
  let total := (thumbs.filter (fun t => t.checked)).length
  match exportLoop wok out (proSpec pattern) thumbs fs 0 with
  | .ok (fs2, count) => .ok (fs2, count, total)
  | .error e => .error e

/-- The filename the Qt variant produces under its default pattern. -/
def proNameDefault (p i : Nat) : PyStr :=
  'i' :: 'm' :: 'g' :: '_' :: 'P' :: (pyStr p ++ '_' :: 'I' :: (pyStr i ++ ['.', 'p', 'n', 'g']))

/-- A decoded raster image, abstracted to its pixel dimensions. -/
structure ImgDim where
  w : Nat
  h : Nat
deriving DecidableEq, Repr

/-- Failure of PIL `Image.open` on bytes that are not a decodable image. -/
inductive DecodeError
  | unidentifiedImage
deriving DecidableEq, Repr

/-- The image library (PIL) as the programs use it: `decode` is `Image.open`
(`none` models the raised decode exception), `encodePNG` is
`img.save(buffer, format="PNG")` abstracted to the dimensions it embeds. -/
structure PILEnv where
  decode : Bytes → Option ImgDim
  encodePNG : ImgDim → Bytes

/-- PIL's `round_aspect(number, key)` inside `Image.thumbnail`:
`max(min(floor(number), ceil(number), key=key), 1)` — Python's two-argument
`min` with `key` returns the first argument on ties. -/
def round_aspect (v : ℚ) (key : ℤ → ℚ) : ℤ :=
  max (if key ⌊v⌋ ≤ key ⌈v⌉ then ⌊v⌋ else ⌈v⌉) 1

/-- The size computation of PIL `Image.thumbnail((x, y))` for an image of
size `W × H` (exact rational arithmetic in place of Python floats): no resize
when the image already fits; otherwise scale the wider-than-box axis by the
aspect ratio `W / H` and round. -/
def thumbnailSize (W H x y : Nat) : Nat × Nat :=
  if W ≤ x ∧ H ≤ y then (W, H)
  else if (W : ℚ) / (H : ℚ) ≤ (x : ℚ) / (y : ℚ) then
    ((round_aspect ((y : ℚ) * ((W : ℚ) / (H : ℚ)))
      (fun n => |(W : ℚ) / (H : ℚ) - (n : ℚ) / (y : ℚ)|)).toNat, y)
  else
    (x, (round_aspect ((x : ℚ) / ((W : ℚ) / (H : ℚ)))
      (fun n => if n = 0 then 0 else |(W : ℚ) / (H : ℚ) - (x : ℚ) / (n : ℚ)|)).toNat)

/-- `create_thumbnail` of extract_images_gui.py (lines 55–60): `Image.open`
on the bytes (raising on undecodable input — there is no `try` around it),
`img.thumbnail(max_size)`, then re-encode as PNG. The default `max_size`
is `(150, 150)`. -/
def create_thumbnail (env : PILEnv) (image_bytes : Bytes)
    (max_size : Nat × Nat := (150, 150)) : Except DecodeError Bytes :=
  match env.decode image_bytes with
  | none => .error .unidentifiedImage
  | some img =>
      .ok (env.encodePNG
        ⟨(thumbnailSize img.w img.h max_size.1 max_size.2).1,
          (thumbnailSize img.w img.h max_size.1 max_size.2).2⟩)

/-- `ImageItem._get_texture` of main.py (lines 29–36): decode, in-place
`thumbnail((300, 300))`, re-encode as PNG (then wrapped into a Kivy texture).
No error handling around the decode. -/
def ImageItem._get_texture (env : PILEnv) (data : Bytes) : Except DecodeError Bytes :=
  match env.decode data with
  | none => .error .unidentifiedImage
  | some img =>
      .ok (env.encodePNG
        ⟨(thumbnailSize img.w img.h 300 300).1, (thumbnailSize img.w img.h 300 300).2⟩)

/-- `MainApp._bytes_to_pixmap` of extractor_pro.py (lines 238–244): decode and
re-encode as PNG at the original size (scaling happens later in Qt). No error
handling around the decode. -/
def MainApp._bytes_to_pixmap (env : PILEnv) (data_bytes : Bytes) :
    Except DecodeError Bytes :=
  match env.decode data_bytes with
  | none => .error .unidentifiedImage
  | some img => .ok (env.encodePNG img)

/-- Checkbox label of `build_selection_window` (extract_images_gui.py
line 80): `f"Page {pnum}, Image {inum}"`. -/
def guiLabel (pnum inum : Nat) : PyStr :=
  'P' :: 'a' :: 'g' :: 'e' :: ' ' :: (pyStr pnum ++ ',' :: ' ' :: 'I' :: 'm' :: 'a' :: 'g' :: 'e' :: ' ' :: pyStr inum)

/-- `build_selection_window` of extract_images_gui.py (lines 73–82),
restricted to the data it derives from each record: one row per record with
the checkbox label and the thumbnail bytes. `create_thumbnail` is called with
no `try` around it, so the first undecodable record aborts the whole build
(the exception lands in `main`'s outer `except`). -/
def build_selection_window (env : PILEnv) : List ImgRec →
    Except DecodeError (List (PyStr × Bytes))
  | [] => .ok []
  | r :: rest =>
      match create_thumbnail env r.raw_bytes with
      | .error e => .error e
      | .ok thumb =>
          match build_selection_window env rest with
          | .error e => .error e
          | .ok rows => .ok ((guiLabel r.page_number r.image_index, thumb) :: rows)

/-- The Selection Surface of the Kivy variant: the user toggling checkboxes
sets each item's `checkbox.active`; every other field is untouched. -/
def setToggles (items : List ImageItem) (flags : List Bool) : List ImageItem :=
  List.zipWith (fun it b => ImageItem.mk it.img_data it.name b) items flags

/-- The Selection Surface of the Qt variant: the user checking boxes sets each
thumb's checkbox state; label and bytes are untouched. -/
def setChecks (thumbs : List Thumb) (flags : List Bool) : List Thumb :=
  List.zipWith (fun t b => Thumb.mk b t.text t.data) thumbs flags

/-- The filesystem carried by a `GuiOutcome`. -/
def GuiOutcome.getFS : GuiOutcome → FS
  | .errPopup fs _ => fs
  | .noImagesPopup fs => fs
  | .donePopup fs _ => fs

/-- The filesystem carried by an export-loop result. -/
def loopResultFS : Except (FS × PyStr) (FS × Nat) → FS
  | .ok (fs, _) => fs
  | .error (fs, _) => fs

/-- The filesystem carried by a `MainApp.export_selected` result. -/
def proResultFS : Except (FS × PyStr) (FS × Nat × Nat) → FS
  | .ok (fs, _, _) => fs
  | .error (fs, _) => fs

/-- The filesystem carried by a `PDFExtractor._do_save` result. -/
def kivyResultFS : Except (FS × PyStr) (FS × List ImageItem × Nat) → FS
  | .ok (fs, _, _) => fs
  | .error (fs, _) => fs

theorem natDigitsRevAux_eq_digits :
    ∀ (fuel n : Nat), n ≤ fuel → natDigitsRevAux fuel n = Nat.digits 10 n := by
  intro fuel
  induction fuel with
  | zero =>
      intro n hn
      rw [Nat.le_zero.mp hn]
      simp [natDigitsRevAux]
  | succ fuel ih =>
      intro n hn
      by_cases h : n = 0
      · rw [h]; simp [natDigitsRevAux]
      · rw [natDigitsRevAux, if_neg h,
          Nat.digits_def' (b := 10) (by norm_num) (Nat.pos_of_ne_zero h),
          ih (n / 10) (by omega)]

theorem pyDigits_eq (n : Nat) : pyDigits n = Nat.digits 10 n :=
  natDigitsRevAux_eq_digits n n le_rfl

theorem pyStr_eq_digits (n : Nat) :
    pyStr n = if n = 0 then ['0'] else ((Nat.digits 10 n).reverse.map Nat.digitChar) := by
  rw [pyStr, pyDigits_eq]

theorem enumFrom_bind_pageRecs (f : Nat → Bytes) :
    ∀ (k : Nat) (pages : List (List Nat)),
      ((List.enumFrom k pages).flatMap fun p =>
        p.2.enum.map fun im => ImgRec.mk (p.1 + 1) (im.1 + 1) (f im.2)) =
      harvestAux f k pages := by
  intro k pages
  induction pages generalizing k with
  | nil => rfl
  | cons xs rest ih =>
      simp only [List.enumFrom_cons, List.flatMap_cons, harvestAux, pageRecs]
      rw [ih]

theorem extract_images_from_pdf_eq (doc : PDFDoc) :
    extract_images_from_pdf doc = harvestAux doc.extract_image 0 doc.pages :=
  enumFrom_bind_pageRecs doc.extract_image 0 doc.pages

theorem ExtractThread.run_eq (doc : PDFDoc) :
    ExtractThread.run doc = extract_images_from_pdf doc := rfl

theorem PDFExtractor.extract_images_eq (doc : PDFDoc) :
    PDFExtractor.extract_images doc =
      (extract_images_from_pdf doc).map
        (fun r => ImageItem.mk r.raw_bytes (kivyName r.page_number r.image_index) false) := by
  simp only [PDFExtractor.extract_images, extract_images_from_pdf, List.map_flatMap,
    List.map_map]
  rfl

theorem pageRecs_length (f : Nat → Bytes) (k : Nat) (xs : List Nat) :
    (pageRecs f k xs).length = xs.length := by
  simp [pageRecs]

theorem pageRecs_page (f : Nat → Bytes) (k : Nat) (xs : List Nat) :
    ∀ r ∈ pageRecs f k xs, r.page_number = k + 1 := by
  intro r hr
  simp only [pageRecs, List.mem_map] at hr
  obtain ⟨im, _, rfl⟩ := hr
  rfl

theorem enumFrom_keys (f : Nat → Bytes) (k : Nat) :
    ∀ (xs : List Nat) (n : Nat),
      ((List.enumFrom n xs).map fun im =>
          ImgRec.mk (k + 1) (im.1 + 1) (f im.2)).map
        (fun r => (r.page_number, r.image_index)) =
      (List.range' (n + 1) xs.length).map (fun i => (k + 1, i)) := by
  intro xs
  induction xs with
  | nil => intro n; rfl
  | cons x rest ih =>
      intro n
      rw [List.enumFrom_cons, List.map_cons, List.map_cons, List.length_cons,
        List.range'_succ, List.map_cons, ih (n + 1)]

theorem pageRecs_keys (f : Nat → Bytes) (k : Nat) (xs : List Nat) :
    (pageRecs f k xs).map (fun r => (r.page_number, r.image_index)) =
      (List.range' 1 xs.length).map (fun i => (k + 1, i)) :=
  enumFrom_keys f k xs 0

theorem pageRecs_idx_map (f : Nat → Bytes) (k : Nat) (xs : List Nat) :
    (pageRecs f k xs).map ImgRec.image_index = List.range' 1 xs.length := by
  have h := congrArg (List.map Prod.snd) (pageRecs_keys f k xs)
  simpa [List.map_map, Function.comp] using h

theorem harvestAux_length (f : Nat → Bytes) :
    ∀ (k : Nat) (pages : List (List Nat)),
      (harvestAux f k pages).length = (pages.map List.length).sum := by
  intro k pages
  induction pages generalizing k with
  | nil => rfl
  | cons xs rest ih => simp [harvestAux, pageRecs_length, ih]

theorem harvestAux_page_ge (f : Nat → Bytes) :
    ∀ (k : Nat) (pages : List (List Nat)) (r : ImgRec),
      r ∈ harvestAux f k pages → k + 1 ≤ r.page_number := by
  intro k pages
  induction pages generalizing k with
  | nil => intro r hr; cases hr
  | cons xs rest ih =>
      intro r hr
      rcases List.mem_append.mp hr with h | h
      · exact le_of_eq (pageRecs_page f k xs r h).symm
      · exact Nat.le_of_succ_le (ih (k + 1) r h)

theorem harvestAux_pairwise_page (f : Nat → Bytes) :
    ∀ (k : Nat) (pages : List (List Nat)),
      (harvestAux f k pages).Pairwise (fun r s => r.page_number ≤ s.page_number) := by
  intro k pages
  induction pages generalizing k with
  | nil => exact List.Pairwise.nil
  | cons xs rest ih =>
      rw [harvestAux, List.pairwise_append]
      refine ⟨?_, ih (k + 1), ?_⟩
      · exact List.Pairwise.imp (fun h => le_of_eq h)
          (List.pairwise_of_forall_mem_list fun r hr s hs =>
            (pageRecs_page f k xs r hr).trans (pageRecs_page f k xs s hs).symm)
      · intro r hr s hs
        rw [pageRecs_page f k xs r hr]
        exact Nat.le_of_succ_le (harvestAux_page_ge f (k + 1) rest s hs)

theorem harvestAux_keys_nodup (f : Nat → Bytes) :
    ∀ (k : Nat) (pages : List (List Nat)),
      ((harvestAux f k pages).map (fun r => (r.page_number, r.image_index))).Nodup := by
  intro k pages
  induction pages generalizing k with
  | nil => exact List.nodup_nil
  | cons xs rest ih =>
      rw [harvestAux, List.map_append, List.nodup_append]
      refine ⟨?_, ih (k + 1), ?_⟩
      · rw [pageRecs_keys]
        exact (List.nodup_range' 1 xs.length).map
          (fun a b h => (congrArg Prod.snd h : a = b))
      · intro key hk
        rw [pageRecs_keys, List.mem_map] at hk
        obtain ⟨i, _, rfl⟩ := hk
        intro hmem
        rw [List.mem_map] at hmem
        obtain ⟨s, hs, hkey⟩ := hmem
        have h1 := harvestAux_page_ge f (k + 1) rest s hs
        have h2 : s.page_number = k + 1 := congrArg Prod.fst hkey
        omega

theorem harvestAux_filter_le (f : Nat → Bytes) :
    ∀ (k : Nat) (pages : List (List Nat)) (p : Nat), p ≤ k →
      (harvestAux f k pages).filter (fun r => r.page_number = p) = [] := by
  intro k pages
  induction pages generalizing k with
  | nil => intro p _; rfl
  | cons xs rest ih =>
      intro p hp
      rw [harvestAux, List.filter_append, ih (k + 1) p (Nat.le_succ_of_le hp),
        List.append_nil, List.filter_eq_nil_iff]
      intro r hr
      rw [pageRecs_page f k xs r hr]
      simp only [decide_eq_true_eq]
      omega

theorem harvestAux_filter_idx (f : Nat → Bytes) :
    ∀ (k : Nat) (pages : List (List Nat)) (p : Nat),
      ((harvestAux f k pages).filter (fun r => r.page_number = p)).map ImgRec.image_index =
        List.range' 1
          (((harvestAux f k pages).filter (fun r => r.page_number = p)).length) := by
  intro k pages
  induction pages generalizing k with
  | nil => intro p; rfl
  | cons xs rest ih =>
      intro p
      rw [harvestAux, List.filter_append]
      by_cases hp : p = k + 1
      · have hleft : (pageRecs f k xs).filter (fun r => r.page_number = p) =
            pageRecs f k xs := by
          rw [List.filter_eq_self]
          intro r hr
          simp [pageRecs_page f k xs r hr, hp]
        have hright : (harvestAux f (k + 1) rest).filter (fun r => r.page_number = p) =
            [] := harvestAux_filter_le f (k + 1) rest p (le_of_eq hp)
        rw [hleft, hright, List.append_nil, pageRecs_idx_map, pageRecs_length]
      · have hleft : (pageRecs f k xs).filter (fun r => r.page_number = p) = [] := by
          rw [List.filter_eq_nil_iff]
          intro r hr
          simp [pageRecs_page f k xs r hr]
          omega
        rw [hleft, List.nil_append]
        exact ih (k + 1) p

theorem digitChar_isDigit : ∀ d < 10, (Nat.digitChar d).isDigit = true := by decide

theorem digitChar_inj_lt : ∀ d < 10, ∀ e < 10,
    Nat.digitChar d = Nat.digitChar e → d = e := by decide

theorem pyStr_isDigit (n : Nat) : ∀ c ∈ pyStr n, c.isDigit = true := by
  intro c hc
  rw [pyStr_eq_digits] at hc
  by_cases h : n = 0
  · simp [h] at hc
    simp [hc]
  · simp only [h, if_false, List.mem_map, List.mem_reverse] at hc
    obtain ⟨d, hd, rfl⟩ := hc
    exact digitChar_isDigit d (Nat.digits_lt_base (by norm_num) hd)

theorem map_digitChar_inj : ∀ (l₁ l₂ : List Nat), (∀ d ∈ l₁, d < 10) →
    (∀ d ∈ l₂, d < 10) → l₁.map Nat.digitChar = l₂.map Nat.digitChar → l₁ = l₂ := by
  intro l₁
  induction l₁ with
  | nil => intro l₂ _ _ h; cases l₂ with
      | nil => rfl
      | cons d t => simp at h
  | cons d t ih =>
      intro l₂ h₁ h₂ h
      cases l₂ with
      | nil => simp at h
      | cons e t' =>
          simp only [List.map_cons, List.cons.injEq] at h
          have hd : d = e := digitChar_inj_lt d (h₁ d (by simp)) e (h₂ e (by simp)) h.1
          rw [hd, ih t' (fun x hx => h₁ x (by simp [hx])) (fun x hx => h₂ x (by simp [hx])) h.2]

theorem pyStr_inj {m n : Nat} (h : pyStr m = pyStr n) : m = n := by
  rw [pyStr_eq_digits, pyStr_eq_digits] at h
  by_cases hm : m = 0 <;> by_cases hn : n = 0
  · rw [hm, hn]
  · exfalso
    simp only [hm, if_true, hn, if_false] at h
    have hlen := congrArg List.length h
    simp at hlen
    obtain ⟨d, hd⟩ := List.length_eq_one.mp hlen.symm
    rw [hd] at h
    simp at h
    have hd10 : d < 10 := Nat.digits_lt_base (by norm_num) (by rw [hd]; simp)
    have : d = 0 := digitChar_inj_lt d hd10 0 (by norm_num) h.symm
    have hn0 : n = Nat.ofDigits 10 (Nat.digits 10 n) := (Nat.ofDigits_digits 10 n).symm
    rw [hd, this] at hn0
    simp [Nat.ofDigits] at hn0
    exact hn hn0
  · exfalso
    simp only [hm, if_false, hn, if_true] at h
    have hlen := congrArg List.length h
    simp at hlen
    obtain ⟨d, hd⟩ := List.length_eq_one.mp hlen
    rw [hd] at h
    simp at h
    have hd10 : d < 10 := Nat.digits_lt_base (by norm_num) (by rw [hd]; simp)
    have : d = 0 := digitChar_inj_lt d hd10 0 (by norm_num) h
    have hm0 : m = Nat.ofDigits 10 (Nat.digits 10 m) := (Nat.ofDigits_digits 10 m).symm
    rw [hd, this] at hm0
    simp [Nat.ofDigits] at hm0
    exact hm hm0
  · simp only [hm, hn, if_false] at h
    have h' := map_digitChar_inj _ _
      (fun d hd => Nat.digits_lt_base (by norm_num) (List.mem_reverse.mp hd))
      (fun d hd => Nat.digits_lt_base (by norm_num) (List.mem_reverse.mp hd)) h
    have := List.reverse_injective h'
    exact Nat.digits_inj_iff.mp this

/-- Unique decomposition of `digits ++ separator :: tail` strings: if the two
prefixes hold only digit characters and the separators are non-digits, equal
concatenations force equal parts. -/
theorem digits_sep_inj : ∀ (a b : List Char) {x y : Char} {u v : List Char},
    (∀ c ∈ a, c.isDigit = true) → (∀ c ∈ b, c.isDigit = true) →
    x.isDigit = false → y.isDigit = false →
    a ++ x :: u = b ++ y :: v → a = b ∧ x = y ∧ u = v := by
  intro a
  induction a with
  | nil =>
      intro b x y u v _ hb hx hy h
      cases b with
      | nil =>
          simp only [List.nil_append, List.cons.injEq] at h
          exact ⟨rfl, h.1, h.2⟩
      | cons c b' =>
          exfalso
          simp only [List.nil_append, List.cons_append, List.cons.injEq] at h
          have := hb c (by simp)
          rw [← h.1, hx] at this
          exact Bool.false_ne_true this
  | cons c a' ih =>
      intro b x y u v ha hb hx hy h
      cases b with
      | nil =>
          exfalso
          simp only [List.cons_append, List.nil_append, List.cons.injEq] at h
          have := ha c (by simp)
          rw [h.1, hy] at this
          exact Bool.false_ne_true this
      | cons c' b' =>
          simp only [List.cons_append, List.cons.injEq] at h
          obtain ⟨h1, h2, h3⟩ := ih b' (fun d hd => ha d (by simp [hd]))
            (fun d hd => hb d (by simp [hd])) hx hy h.2
          exact ⟨by rw [h.1, h1], h2, h3⟩

theorem guiName_inj {p i q j : Nat} (h : guiName p i = guiName q j) : p = q ∧ i = j := by
  unfold guiName at h
  simp only [List.cons_append, List.append_assoc, List.cons.injEq] at h
  obtain ⟨-, -, -, -, -, h⟩ := h
  obtain ⟨h1, -, h2⟩ := digits_sep_inj (pyStr p) (pyStr q)
    (pyStr_isDigit p) (pyStr_isDigit q) (by decide) (by decide) h
  simp only [List.cons.injEq] at h2
  obtain ⟨-, h2⟩ := h2
  obtain ⟨h3, -, -⟩ := digits_sep_inj (pyStr i) (pyStr j)
    (pyStr_isDigit i) (pyStr_isDigit j) (by decide) (by decide) h2
  exact ⟨pyStr_inj h1, pyStr_inj h3⟩

theorem kivyName_inj {p i q j : Nat} (h : kivyName p i = kivyName q j) : p = q ∧ i = j := by
  unfold kivyName at h
  simp only [List.cons_append, List.append_assoc, List.cons.injEq] at h
  obtain ⟨-, h⟩ := h
  obtain ⟨h1, -, h2⟩ := digits_sep_inj (pyStr p) (pyStr q)
    (pyStr_isDigit p) (pyStr_isDigit q) (by decide) (by decide) h
  simp only [List.cons.injEq] at h2
  obtain ⟨-, h2⟩ := h2
  obtain ⟨h3, -, -⟩ := digits_sep_inj (pyStr i) (pyStr j)
    (pyStr_isDigit i) (pyStr_isDigit j) (by decide) (by decide) h2
  exact ⟨pyStr_inj h1, pyStr_inj h3⟩

theorem exportLoop_ok (wok : Dir → PyStr → Bool) (out : Dir) (es : ExportSpec α) :
    ∀ (l : List α) (fs : FS) (count : Nat),
      (∀ a ∈ l, es.sel a = true → wok out (es.fname a) = true) →
      exportLoop wok out es l fs count =
        .ok (⟨fs.dirs, (selWrites out es l).reverse ++ fs.files⟩,
          count + (l.filter es.sel).length) := by
  intro l
  induction l with
  | nil => intro fs count _; simp [exportLoop, selWrites]
  | cons a rest ih =>
      intro fs count hw
      rw [exportLoop]
      by_cases hs : es.sel a = true
      · rw [if_pos hs, if_pos (hw a (by simp) hs),
          ih _ _ (fun b hb => hw b (by simp [hb]))]
        simp only [selWrites, List.filter_cons, hs, if_pos, List.map_cons,
          List.reverse_cons, List.length_cons, FS.writeFile]
        simp [List.append_assoc, Nat.add_comm, Nat.add_left_comm, Nat.add_assoc]
      · rw [if_neg hs, ih _ _ (fun b hb => hw b (by simp [hb]))]
        simp only [selWrites, List.filter_cons]
        rw [if_neg hs]

theorem exportLoop_error (wok : Dir → PyStr → Bool) (out : Dir) (es : ExportSpec α)
    (a : α) (l₂ : List α) (ha : es.sel a = true) (hfail : wok out (es.fname a) = false) :
    ∀ (l₁ : List α) (fs : FS) (count : Nat),
      (∀ b ∈ l₁, es.sel b = true → wok out (es.fname b) = true) →
      exportLoop wok out es (l₁ ++ a :: l₂) fs count =
        .error (⟨fs.dirs, (selWrites out es l₁).reverse ++ fs.files⟩, es.fname a) := by
  intro l₁
  induction l₁ with
  | nil =>
      intro fs count _
      rw [List.nil_append, exportLoop, if_pos ha, if_neg (by simp [hfail])]
      simp [selWrites]
  | cons b rest ih =>
      intro fs count hw
      rw [List.cons_append, exportLoop]
      by_cases hb : es.sel b = true
      · rw [if_pos hb, if_pos (hw b (by simp) hb),
          ih _ _ (fun c hc => hw c (by simp [hc]))]
        simp only [selWrites, List.filter_cons, hb, if_pos, List.map_cons,
          List.reverse_cons, FS.writeFile]
        simp
      · rw [if_neg hb, ih _ _ (fun c hc => hw c (by simp [hc]))]
        simp only [selWrites, List.filter_cons]
        rw [if_neg hb]

theorem find?_unique {α : Type} (p : α → Bool) :
    ∀ {l : List α} {e : α}, e ∈ l → p e = true →
      (∀ x ∈ l, p x = true → x = e) → l.find? p = some e := by
  intro l
  induction l with
  | nil => intro e he; cases he
  | cons c t ih =>
      intro e he hpe huniq
      by_cases hc : p c = true
      · rw [List.find?_cons_of_pos _ hc, huniq c (by simp) hc]
      · rw [List.find?_cons_of_neg _ hc]
        rcases List.mem_cons.mp he with rfl | ht
        · exact absurd hpe hc
        · exact ih ht hpe (fun x hx => huniq x (by simp [hx]))

theorem pyStr_ne_of_not_digit {sep : Char} (hsep : sep.isDigit = false) (n : Nat) :
    ∀ c ∈ pyStr n, c ≠ sep := by
  intro c hc heq
  have h := pyStr_isDigit n c hc
  rw [heq, hsep] at h
  exact Bool.false_ne_true h

theorem pySplit_sepFree (sep : Char) :
    ∀ (l : PyStr), (∀ c ∈ l, c ≠ sep) → pySplit sep l = [l] := by
  intro l
  induction l with
  | nil => intro _; rfl
  | cons c rest ih =>
      intro h
      rw [pySplit, if_neg (h c (by simp)), ih (fun x hx => h x (by simp [hx]))]

theorem pySplit_append_sep (sep : Char) :
    ∀ (u w : PyStr), (∀ c ∈ u, c ≠ sep) →
      pySplit sep (u ++ sep :: w) = u :: pySplit sep w := by
  intro u
  induction u with
  | nil => intro w _; rw [List.nil_append, pySplit, if_pos rfl]
  | cons c u' ih =>
      intro w h
      rw [List.cons_append, pySplit, if_neg (h c (by simp)),
        ih w (fun x hx => h x (by simp [hx]))]

theorem proLabel_split (p i : Nat) :
    pySplit '-' (proLabel p i) = ['P' :: pyStr p, 'I' :: pyStr i] := by
  have hu : ∀ c ∈ 'P' :: pyStr p, c ≠ '-' := by
    intro c hc
    rcases List.mem_cons.mp hc with rfl | hc
    · decide
    · exact pyStr_ne_of_not_digit (by decide) p c hc
  have hw : ∀ c ∈ 'I' :: pyStr i, c ≠ '-' := by
    intro c hc
    rcases List.mem_cons.mp hc with rfl | hc
    · decide
    · exact pyStr_ne_of_not_digit (by decide) i c hc
  have h1 : proLabel p i = ('P' :: pyStr p) ++ '-' :: ('I' :: pyStr i) := by
    simp [proLabel]
  rw [h1, pySplit_append_sep '-' _ _ hu, pySplit_sepFree '-' _ hw]

theorem proFname_default (b : Bool) (p i : Nat) (d : Bytes) :
    proFname proDefaultPattern (Thumb.mk b (proLabel p i) d) = proNameDefault p i := by
  unfold proFname
  rw [show (Thumb.mk b (proLabel p i) d).text = proLabel p i from rfl, proLabel_split]
  rfl

theorem proNameDefault_inj {p i q j : Nat} (h : proNameDefault p i = proNameDefault q j) :
    p = q ∧ i = j := by
  unfold proNameDefault at h
  simp only [List.cons_append, List.append_assoc, List.cons.injEq] at h
  obtain ⟨-, -, -, -, -, h⟩ := h
  obtain ⟨h1, -, h2⟩ := digits_sep_inj (pyStr p) (pyStr q)
    (pyStr_isDigit p) (pyStr_isDigit q) (by decide) (by decide) h
  simp only [List.cons.injEq] at h2
  obtain ⟨-, h2⟩ := h2
  obtain ⟨h3, -, -⟩ := digits_sep_inj (pyStr i) (pyStr j)
    (pyStr_isDigit i) (pyStr_isDigit j) (by decide) (by decide) h2
  exact ⟨pyStr_inj h1, pyStr_inj h3⟩

theorem round_aspect_le {v : ℚ} {key : ℤ → ℚ} {m : ℤ} (hv : v ≤ (m : ℚ)) (hm : 1 ≤ m) :
    round_aspect v key ≤ m := by
  unfold round_aspect
  have hceil : ⌈v⌉ ≤ m := Int.ceil_le.mpr hv
  have hfloor : ⌊v⌋ ≤ m := le_trans (Int.floor_le_ceil v) hceil
  rcases le_or_lt (key ⌊v⌋) (key ⌈v⌉) with h | h
  · rw [if_pos h]; exact max_le hfloor hm
  · rw [if_neg (not_le.mpr h)]; exact max_le hceil hm

theorem one_le_round_aspect (v : ℚ) (key : ℤ → ℚ) : 1 ≤ round_aspect v key :=
  le_max_right _ 1

theorem round_aspect_close {v : ℚ} {key : ℤ → ℚ} (hv : 0 < v) :
    |((round_aspect v key : ℤ) : ℚ) - v| < 1 := by
  unfold round_aspect
  have hceil1 : 1 ≤ ⌈v⌉ := Int.ceil_pos.mpr hv
  have hcase : (if key ⌊v⌋ ≤ key ⌈v⌉ then ⌊v⌋ else ⌈v⌉) = ⌊v⌋ ∨
      (if key ⌊v⌋ ≤ key ⌈v⌉ then ⌊v⌋ else ⌈v⌉) = ⌈v⌉ := by
    rcases le_or_lt (key ⌊v⌋) (key ⌈v⌉) with h | h
    · exact Or.inl (if_pos h)
    · exact Or.inr (if_neg (not_le.mpr h))
  rcases hcase with hc | hc
  · rw [hc]
    rcases le_or_lt 1 ⌊v⌋ with h1 | h1
    · rw [max_eq_left h1, abs_lt]
      constructor
      · have := Int.lt_floor_add_one v
        linarith
      · have := Int.floor_le v
        linarith
    · have h0 : ⌊v⌋ ≤ 1 := le_of_lt h1
      rw [max_eq_right h0, abs_lt]
      have hv1 : v < 2 := by
        have h2 := Int.lt_floor_add_one v
        have h3 : (⌊v⌋ : ℚ) ≤ 1 := by exact_mod_cast h0
        linarith
      constructor
      · push_cast
        linarith
      · push_cast
        linarith
  · rw [hc, max_eq_left hceil1, abs_lt]
    constructor
    · have := Int.le_ceil v
      linarith
    · have := Int.ceil_lt_add_one v
      linarith

theorem thumbnailSize_spec (W H x y : Nat) (hW : 1 ≤ W) (hH : 1 ≤ H)
    (hx : 1 ≤ x) (hy : 1 ≤ y) :
    (thumbnailSize W H x y).1 ≤ x ∧ (thumbnailSize W H x y).2 ≤ y ∧
    |((thumbnailSize W H x y).1 : ℚ) * (H : ℚ) -
      ((thumbnailSize W H x y).2 : ℚ) * (W : ℚ)| < max (H : ℚ) (W : ℚ) := by
  have hHq : (0 : ℚ) < (H : ℚ) := by exact_mod_cast hH
  have hWq : (0 : ℚ) < (W : ℚ) := by exact_mod_cast hW
  have hxq : (0 : ℚ) < (x : ℚ) := by exact_mod_cast hx
  have hyq : (0 : ℚ) < (y : ℚ) := by exact_mod_cast hy
  by_cases hfit : W ≤ x ∧ H ≤ y
  · have heq : thumbnailSize W H x y = (W, H) := by
      unfold thumbnailSize; rw [if_pos hfit]
    rw [heq]
    refine ⟨hfit.1, hfit.2, ?_⟩
    have : ((W, H).1 : ℚ) * (H : ℚ) - ((W, H).2 : ℚ) * (W : ℚ) = 0 := by
      push_cast; ring
    rw [this, abs_zero]
    exact lt_max_of_lt_left hHq
  · by_cases hasp : (W : ℚ) / (H : ℚ) ≤ (x : ℚ) / (y : ℚ)
    · -- the image is proportionally wider than the box: height pinned to `y`
      have heq : thumbnailSize W H x y =
          ((round_aspect ((y : ℚ) * ((W : ℚ) / (H : ℚ)))
            (fun n => |(W : ℚ) / (H : ℚ) - (n : ℚ) / (y : ℚ)|)).toNat, y) := by
        unfold thumbnailSize; rw [if_neg hfit, if_pos hasp]
      set v : ℚ := (y : ℚ) * ((W : ℚ) / (H : ℚ)) with hvdef
      set r : ℤ := round_aspect v (fun n => |(W : ℚ) / (H : ℚ) - (n : ℚ) / (y : ℚ)|) with hrdef
      have hv0 : 0 < v := mul_pos hyq (div_pos hWq hHq)
      have hvx : v ≤ (x : ℚ) := by
        rw [hvdef]
        have h1 : (y : ℚ) * ((W : ℚ) / (H : ℚ)) ≤ (y : ℚ) * ((x : ℚ) / (y : ℚ)) :=
          mul_le_mul_of_nonneg_left hasp (le_of_lt hyq)
        have h2 : (y : ℚ) * ((x : ℚ) / (y : ℚ)) = (x : ℚ) := by
          field_simp
        exact h1.trans (le_of_eq h2)
      have hr_le : r ≤ (x : ℤ) := round_aspect_le (by exact_mod_cast hvx)
        (by exact_mod_cast hx)
      have hr_one : 1 ≤ r := one_le_round_aspect v _
      have hr_nonneg : 0 ≤ r := le_trans zero_le_one hr_one
      have hcast : ((r.toNat : ℕ) : ℚ) = ((r : ℤ) : ℚ) := by
        exact_mod_cast congrArg (fun z : ℤ => (z : ℚ)) (Int.toNat_of_nonneg hr_nonneg)
      rw [heq]
      refine ⟨by exact_mod_cast Int.toNat_le.mpr hr_le, le_rfl, ?_⟩
      have hclose : |((r : ℤ) : ℚ) - v| < 1 := round_aspect_close hv0
      have hvH : v * (H : ℚ) = (y : ℚ) * (W : ℚ) := by
        rw [hvdef]; field_simp
      have hgoal : ((r.toNat : ℕ) : ℚ) * (H : ℚ) - (y : ℚ) * (W : ℚ) =
          (((r : ℤ) : ℚ) - v) * (H : ℚ) := by
        rw [hcast, ← hvH]; ring
      calc |((r.toNat : ℕ) : ℚ) * (H : ℚ) - (y : ℚ) * (W : ℚ)|
          = |(((r : ℤ) : ℚ) - v)| * |(H : ℚ)| := by rw [hgoal, abs_mul]
        _ < 1 * (H : ℚ) := by
            rw [abs_of_pos hHq]
            exact mul_lt_mul_of_pos_right hclose hHq
        _ ≤ max (H : ℚ) (W : ℚ) := by rw [one_mul]; exact le_max_left _ _
    · -- the image is proportionally taller than the box: width pinned to `x`
      have heq : thumbnailSize W H x y =
          (x, (round_aspect ((x : ℚ) / ((W : ℚ) / (H : ℚ)))
            (fun n => if n = 0 then 0 else |(W : ℚ) / (H : ℚ) - (x : ℚ) / (n : ℚ)|)).toNat) := by
        unfold thumbnailSize; rw [if_neg hfit, if_neg hasp]
      set v : ℚ := (x : ℚ) / ((W : ℚ) / (H : ℚ)) with hvdef
      set r : ℤ := round_aspect v
        (fun n => if n = 0 then 0 else |(W : ℚ) / (H : ℚ) - (x : ℚ) / (n : ℚ)|) with hrdef
      have hv0 : 0 < v := div_pos hxq (div_pos hWq hHq)
      have hlt : (x : ℚ) / (y : ℚ) < (W : ℚ) / (H : ℚ) := not_le.mp hasp
      have hxHyW : (x : ℚ) * (H : ℚ) < (W : ℚ) * (y : ℚ) := by
        rw [div_lt_div_iff₀ hyq hHq] at hlt
        exact hlt
      have hvy : v ≤ (y : ℚ) := by
        rw [hvdef, div_div_eq_mul_div, div_le_iff₀ hWq]
        nlinarith
      have hr_le : r ≤ (y : ℤ) := round_aspect_le (by exact_mod_cast hvy)
        (by exact_mod_cast hy)
      have hr_one : 1 ≤ r := one_le_round_aspect v _
      have hr_nonneg : 0 ≤ r := le_trans zero_le_one hr_one
      have hcast : ((r.toNat : ℕ) : ℚ) = ((r : ℤ) : ℚ) := by
        exact_mod_cast congrArg (fun z : ℤ => (z : ℚ)) (Int.toNat_of_nonneg hr_nonneg)
      rw [heq]
      refine ⟨le_rfl, by exact_mod_cast Int.toNat_le.mpr hr_le, ?_⟩
      have hclose : |((r : ℤ) : ℚ) - v| < 1 := round_aspect_close hv0
      have hvW : v * (W : ℚ) = (x : ℚ) * (H : ℚ) := by
        rw [hvdef, div_div_eq_mul_div]
        field_simp
      have hgoal : (x : ℚ) * (H : ℚ) - ((r.toNat : ℕ) : ℚ) * (W : ℚ) =
          (v - ((r : ℤ) : ℚ)) * (W : ℚ) := by
        rw [hcast, ← hvW]; ring
      calc |(x : ℚ) * (H : ℚ) - ((r.toNat : ℕ) : ℚ) * (W : ℚ)|
          = |(v - ((r : ℤ) : ℚ))| * |(W : ℚ)| := by rw [hgoal, abs_mul]
        _ < 1 * (W : ℚ) := by
            rw [abs_of_pos hWq, abs_sub_comm]
            exact mul_lt_mul_of_pos_right hclose hWq
        _ ≤ max (H : ℚ) (W : ℚ) := by rw [one_mul]; exact le_max_right _ _

theorem build_selection_window_error (env : PILEnv) :
    ∀ (images : List ImgRec) (r : ImgRec), r ∈ images →
      env.decode r.raw_bytes = none →
      build_selection_window env images = .error .unidentifiedImage := by
  intro images
  induction images with
  | nil => intro r hr; cases hr
  | cons s rest ih =>
      intro r hr hdec
      rcases List.mem_cons.mp hr with rfl | hr
      · rw [build_selection_window]
        unfold create_thumbnail
        rw [hdec]
      · rw [build_selection_window]
        cases hthumb : create_thumbnail env s.raw_bytes with
        | error e =>
            cases e
            rfl
        | ok thumb => rw [ih r hr hdec]

theorem map_zipWith_left {α β γ δ : Type} (f : α → β → γ) (g : γ → δ) (h : α → δ)
    (hgf : ∀ a b, g (f a b) = h a) :
    ∀ (l₁ : List α) (l₂ : List β), l₂.length = l₁.length →
      (List.zipWith f l₁ l₂).map g = l₁.map h := by
  intro l₁
  induction l₁ with
  | nil => intro l₂ _; simp
  | cons a t ih =>
      intro l₂ hlen
      cases l₂ with
      | nil => simp at hlen
      | cons b t' =>
          simp only [List.zipWith_cons_cons, List.map_cons, hgf]
          rw [ih t' (by simpa using hlen)]

theorem selWrites_length (out : Dir) (es : ExportSpec α) (l : List α) :
    (selWrites out es l).length = (l.filter es.sel).length := by
  simp [selWrites]

theorem selWrites_map_name (out : Dir) (es : ExportSpec α) (l : List α) :
    (selWrites out es l).map (fun e => e.2.1) = (l.filter es.sel).map es.fname := by
  simp only [selWrites, List.map_map]
  rfl

theorem find?_append_left {α : Type} {p : α → Bool} {l₁ l₂ : List α} {e : α}
    (h : l₁.find? p = some e) : (l₁ ++ l₂).find? p = some e := by
  rw [List.find?_append, h]
  rfl

theorem export_readFile {α : Type} (out : Dir) (es : ExportSpec α) (l : List α) (fs : FS)
    (hnodup : ((l.filter es.sel).map es.fname).Nodup) :
    ∀ a ∈ l, es.sel a = true →
      FS.readFile ⟨fs.dirs, (selWrites out es l).reverse ++ fs.files⟩ out (es.fname a) =
        some (es.data a) := by
  intro a ha hsel
  have hamem : a ∈ l.filter es.sel := List.mem_filter.mpr ⟨ha, hsel⟩
  have hmem : (out, es.fname a, es.data a) ∈ (selWrites out es l).reverse := by
    rw [List.mem_reverse]
    exact List.mem_map_of_mem _ hamem
  have hpred : (fun e : Dir × PyStr × Bytes => decide (e.1 = out ∧ e.2.1 = es.fname a))
      (out, es.fname a, es.data a) = true := by simp
  have huniq : ∀ e' ∈ (selWrites out es l).reverse,
      (fun e : Dir × PyStr × Bytes => decide (e.1 = out ∧ e.2.1 = es.fname a)) e' = true →
      e' = (out, es.fname a, es.data a) := by
    intro e' he' hp
    rw [List.mem_reverse] at he'
    obtain ⟨b, hb, rfl⟩ := List.mem_map.mp he'
    simp only [decide_eq_true_eq] at hp
    have hba : b = a := List.inj_on_of_nodup_map hnodup hb hamem hp.2
    rw [hba]
  have hfind := find?_unique _ hmem hpred huniq
  unfold FS.readFile
  rw [find?_append_left hfind]
  rfl

theorem nodup_names_of_keys (records : List ImgRec) (nf : Nat → Nat → PyStr)
    (hinj : ∀ {p i q j : Nat}, nf p i = nf q j → p = q ∧ i = j)
    (hkeys : (records.map (fun r => (r.page_number, r.image_index))).Nodup) :
    (records.map (fun r => nf r.page_number r.image_index)).Nodup := by
  have h2 : records.map (fun r => nf r.page_number r.image_index) =
      (records.map (fun r => (r.page_number, r.image_index))).map (fun k => nf k.1 k.2) := by
    rw [List.map_map]
    rfl
  rw [h2]
  refine hkeys.map ?_
  intro u v h
  exact Prod.ext (hinj h).1 (hinj h).2

theorem extract_keys_nodup (doc : PDFDoc) :
    ((extract_images_from_pdf doc).map (fun r => (r.page_number, r.image_index))).Nodup := by
  rw [extract_images_from_pdf_eq]
  exact harvestAux_keys_nodup doc.extract_image 0 doc.pages

theorem exportLoop_dirs (wok : Dir → PyStr → Bool) (out : Dir) (es : ExportSpec α) :
    ∀ (l : List α) (fs : FS) (count : Nat),
      (loopResultFS (exportLoop wok out es l fs count)).dirs = fs.dirs := by
  intro l
  induction l with
  | nil => intro fs count; rfl
  | cons a rest ih =>
      intro fs count
      rw [exportLoop]
      by_cases hs : es.sel a = true
      · rw [if_pos hs]
        by_cases hw : wok out (es.fname a) = true
        · rw [if_pos hw, ih]
          rfl
        · rw [if_neg hw]
          rfl
      · rw [if_neg hs]
        exact ih fs count

theorem harvestAux_nil_of_empty (f : Nat → Bytes) :
    ∀ (k : Nat) (pages : List (List Nat)), (∀ pg ∈ pages, pg = []) →
      harvestAux f k pages = [] := by
  intro k pages
  induction pages generalizing k with
  | nil => intro _; rfl
  | cons xs rest ih =>
      intro h
      rw [harvestAux, h xs (by simp), ih (k + 1) (fun pg hpg => h pg (by simp [hpg]))]
      rfl

theorem ImageItem_map_mk_id (l : List ImageItem) :
    l.map (fun it => ImageItem.mk it.img_data it.name it.checkbox_active) = l := by
  have h : (fun it : ImageItem => ImageItem.mk it.img_data it.name it.checkbox_active) = id :=
    funext fun it => rfl
  rw [h, List.map_id]

theorem gui_selWrites_names_nodup (doc : PDFDoc) (sel : Nat → Bool) (out : Dir) :
    ((selWrites out (guiSpec sel) (extract_images_from_pdf doc).enum).map
      (fun e => e.2.1)).Nodup := by
  rw [selWrites_map_name]
  apply List.Nodup.sublist ((List.filter_sublist _).map (guiSpec sel).fname)
  have he : (extract_images_from_pdf doc).enum.map (guiSpec sel).fname =
      (extract_images_from_pdf doc).map (fun r => guiName r.page_number r.image_index) := by
    have h1 : (guiSpec sel).fname =
        (fun r : ImgRec => guiName r.page_number r.image_index) ∘ Prod.snd := rfl
    rw [h1, ← List.map_map, List.enum_map_snd]
  rw [he]
  exact nodup_names_of_keys _ _ (fun {p i q j} h => guiName_inj h) (extract_keys_nodup doc)

theorem kivy_items_names (doc : PDFDoc) (flags : List Bool)
    (hlen : flags.length = (PDFExtractor.extract_images doc).length) :
    (setToggles (PDFExtractor.extract_images doc) flags).map ImageItem.name =
      (extract_images_from_pdf doc).map (fun r => kivyName r.page_number r.image_index) := by
  unfold setToggles
  rw [map_zipWith_left (fun it b => ImageItem.mk it.img_data it.name b) ImageItem.name
    ImageItem.name (fun _ _ => rfl) _ flags hlen,
    PDFExtractor.extract_images_eq, List.map_map]
  rfl

theorem kivy_selWrites_names_nodup (doc : PDFDoc) (flags : List Bool) (folder : Dir)
    (hlen : flags.length = (PDFExtractor.extract_images doc).length) :
    ((selWrites folder kivySpec (setToggles (PDFExtractor.extract_images doc) flags)).map
      (fun e => e.2.1)).Nodup := by
  rw [selWrites_map_name]
  apply List.Nodup.sublist ((List.filter_sublist _).map kivySpec.fname)
  have he : (setToggles (PDFExtractor.extract_images doc) flags).map kivySpec.fname =
      (extract_images_from_pdf doc).map (fun r => kivyName r.page_number r.image_index) :=
    kivy_items_names doc flags hlen
  rw [he]
  exact nodup_names_of_keys _ _ (fun {p i q j} h => kivyName_inj h) (extract_keys_nodup doc)

theorem pro_thumbs_names (doc : PDFDoc) (flags : List Bool)
    (hlen : flags.length = (display_thumbs (ExtractThread.run doc)).length) :
    (setChecks (display_thumbs (ExtractThread.run doc)) flags).map
        (proSpec proDefaultPattern).fname =
      (extract_images_from_pdf doc).map
        (fun r => proNameDefault r.page_number r.image_index) := by
  unfold setChecks
  rw [map_zipWith_left (fun (t : Thumb) (b : Bool) => Thumb.mk b t.text t.data)
    (proSpec proDefaultPattern).fname
    (fun t => proFname proDefaultPattern t) (fun _ _ => rfl) _ flags hlen,
    ExtractThread.run_eq]
  unfold display_thumbs
  rw [List.map_map]
  have hfun : ((fun t => proFname proDefaultPattern t) ∘
      (fun r : ImgRec => Thumb.mk false (proLabel r.page_number r.image_index) r.raw_bytes)) =
      fun r : ImgRec => proNameDefault r.page_number r.image_index :=
    funext fun r => proFname_default false r.page_number r.image_index r.raw_bytes
  rw [hfun]

theorem pro_selWrites_names_nodup (doc : PDFDoc) (flags : List Bool) (out : Dir)
    (hlen : flags.length = (display_thumbs (ExtractThread.run doc)).length) :
    ((selWrites out (proSpec proDefaultPattern)
        (setChecks (display_thumbs (ExtractThread.run doc)) flags)).map
      (fun e => e.2.1)).Nodup := by
  rw [selWrites_map_name]
  apply List.Nodup.sublist ((List.filter_sublist _).map (proSpec proDefaultPattern).fname)
  rw [pro_thumbs_names doc flags hlen]
  exact nodup_names_of_keys _ _ (fun {p i q j} h => proNameDefault_inj h) (extract_keys_nodup doc)

/-- C1: for every PDF, the Harvester returns exactly N records where N is the
total number of embedded images across the pages, the `(page_number,
image_index)` pairs are pairwise distinct, and the page numbers are
non-decreasing in sequence order; the Qt harvester produces the same record
list and the Kivy harvester the same records as labelled items. -/
theorem C1_harvester_shape (doc : PDFDoc) :
    (extract_images_from_pdf doc).length = (doc.pages.map List.length).sum ∧
    ((extract_images_from_pdf doc).map (fun r => (r.page_number, r.image_index))).Nodup ∧
    (extract_images_from_pdf doc).Pairwise (fun r s => r.page_number ≤ s.page_number) ∧
    ExtractThread.run doc = extract_images_from_pdf doc ∧
    PDFExtractor.extract_images doc = (extract_images_from_pdf doc).map
      (fun r => ImageItem.mk r.raw_bytes (kivyName r.page_number r.image_index) false) := by
  refine ⟨?_, extract_keys_nodup doc, ?_, ExtractThread.run_eq doc,
    PDFExtractor.extract_images_eq doc⟩
  · rw [extract_images_from_pdf_eq]
    exact harvestAux_length doc.extract_image 0 doc.pages
  · rw [extract_images_from_pdf_eq]
    exact harvestAux_pairwise_page doc.extract_image 0 doc.pages

/-- C5: a PDF that opens but holds zero embedded images yields the empty
record list, the PySimpleGUI flow surfaces it with the dedicated
`No images found.` popup, and that outcome is distinct from every error
popup. -/
theorem C5_zero_images_empty_session (doc : PDFDoc) (hempty : ∀ pg ∈ doc.pages, pg = [])
    (wok : Dir → PyStr → Bool) (pdf : PyStr) (out : Dir) (sel : Nat → Bool) (fs : FS)
    (hpdf : pdf ≠ []) (hout : out ≠ []) :
    extract_images_from_pdf doc = [] ∧
    gui_main wok pdf true (.ok doc) out sel fs = .noImagesPopup (fs.makedirs out) ∧
    ∀ (fs' : FS) (msg : PyStr), GuiOutcome.noImagesPopup fs' ≠ GuiOutcome.errPopup fs' msg := by
  have hnil : extract_images_from_pdf doc = [] := by
    rw [extract_images_from_pdf_eq]
    exact harvestAux_nil_of_empty doc.extract_image 0 doc.pages hempty
  refine ⟨hnil, ?_, ?_⟩
  · unfold gui_main
    rw [if_neg (by simp [hpdf, hout]), if_neg (by simp)]
    simp [hnil]
  · intro fs' msg h
    exact GuiOutcome.noConfusion h

/-- C7 counterexample: for a PDF whose first page has no images (here: page 1
empty, page 2 with one image), the first harvested record carries page number
2, not 1. -/
theorem C7_counterexample :
    ((extract_images_from_pdf (PDFDoc.mk [[], [7]] (fun _ => [1]))).map
      ImgRec.page_number).head? = some 2 ∧ (2 : Nat) ≠ 1 := by
  constructor
  · rfl
  · decide

/-- C7 amended: within any fixed page number the image indices are exactly the
contiguous range 1..N for that page (N being the number of records of that
page), and every page number is at least 1; the first record's page number is
the 1-based position of the first page that has images, which need not be 1. -/
theorem C7_amended_indices_contiguous (doc : PDFDoc) (p : Nat) :
    ((extract_images_from_pdf doc).filter (fun r => r.page_number = p)).map
        ImgRec.image_index =
      List.range' 1
        (((extract_images_from_pdf doc).filter (fun r => r.page_number = p)).length) ∧
    ∀ r ∈ extract_images_from_pdf doc, 1 ≤ r.page_number := by
  rw [extract_images_from_pdf_eq]
  exact ⟨harvestAux_filter_idx doc.extract_image 0 doc.pages p,
    fun r hr => harvestAux_page_ge doc.extract_image 0 doc.pages r hr⟩

/-- C6 counterexample: the Kivy variant names the record with page 1, index 2
`p1_i2.png` — not `img_p1_i2.png` — and the Qt variant's default pattern names
it `img_P1_I2.png`; the claimed default filename is used only by the
PySimpleGUI variant. -/
theorem C6_counterexample :
    kivyName 1 2 ≠ "img_p1_i2.png".toList ∧
    kivyName 1 2 = "p1_i2.png".toList ∧
    proFname proDefaultPattern (Thumb.mk true (proLabel 1 2) []) ≠ "img_p1_i2.png".toList ∧
    proFname proDefaultPattern (Thumb.mk true (proLabel 1 2) []) = "img_P1_I2.png".toList := by
  refine ⟨by decide, by decide, by decide, by decide⟩

/-- C6 amended: the default export filename differs per variant. The
PySimpleGUI variant uses `img_p{p}_i{i}.png` — there, exporting only the
record `(1, 2)` into `out` writes exactly the one file `out/img_p1_i2.png`
with the record's bytes. The Kivy variant names the same record `p1_i2.png`
and the Qt variant's default pattern renders `img_P{page}_I{idx}.png`. -/
theorem C6_amended_default_filenames (out : Dir) (d0 d : Bytes) (fs : FS)
    (folder : Dir) (fsk : FS) (hfolder : folder ∈ fsk.dirs) :
    gui_download (fun _ _ => true) out [ImgRec.mk 1 1 d0, ImgRec.mk 1 2 d]
        (fun idx => idx == 1) fs =
      .ok (⟨fs.dirs, (out, "img_p1_i2.png".toList, d) :: fs.files⟩, 1) ∧
    PDFExtractor._do_save (fun _ _ => true) folder [ImageItem.mk d (kivyName 1 2) true] fsk =
      .ok (⟨fsk.dirs, (folder, "p1_i2.png".toList, d) :: fsk.files⟩,
        [ImageItem.mk d (kivyName 1 2) true], 1) ∧
    MainApp.export_selected (fun _ _ => true) out proDefaultPattern
        [Thumb.mk true (proLabel 1 2) d] fs =
      .ok (⟨fs.dirs, (out, "img_P1_I2.png".toList, d) :: fs.files⟩, 1, 1) := by
  refine ⟨?_, ?_, ?_⟩
  · have henum : ([ImgRec.mk 1 1 d0, ImgRec.mk 1 2 d] : List ImgRec).enum =
        [(0, ImgRec.mk 1 1 d0), (1, ImgRec.mk 1 2 d)] := rfl
    have hok := exportLoop_ok (fun _ _ => true) out (guiSpec (fun idx => idx == 1))
      [ImgRec.mk 1 1 d0, ImgRec.mk 1 2 d].enum fs 0 (fun _ _ _ => rfl)
    unfold gui_download
    rw [hok]
    have hn : guiName 1 2 = "img_p1_i2.png".toList := by decide
    simp [selWrites, guiSpec, henum, hn]
  · have hok := exportLoop_ok (fun _ _ => true) folder kivySpec
      [ImageItem.mk d (kivyName 1 2) true] fsk 0 (fun _ _ _ => rfl)
    unfold PDFExtractor._do_save
    rw [if_pos hfolder, hok]
    have hn : kivyName 1 2 = "p1_i2.png".toList := by decide
    simp [selWrites, kivySpec, hn]
  · have hok := exportLoop_ok (fun _ _ => true) out (proSpec proDefaultPattern)
      [Thumb.mk true (proLabel 1 2) d] fs 0 (fun _ _ _ => rfl)
    unfold MainApp.export_selected
    rw [hok]
    have hn : proFname proDefaultPattern (Thumb.mk true (proLabel 1 2) d) =
        "img_P1_I2.png".toList := by
      rw [proFname_default true 1 2 d]
      decide
    simp [selWrites, proSpec, hn]

/-- C10: exporting never modifies the session: whenever `_do_save` completes,
the item list it hands back — the session as it stands after the save loop —
is exactly the input session: every item's bytes, name and toggle state are
unchanged. -/
theorem C10_export_preserves_session (wok : Dir → PyStr → Bool) (folder : Dir)
    (extracted : List ImageItem) (fs : FS) (fs2 : FS) (rest : List ImageItem) (count : Nat)
    (h : PDFExtractor._do_save wok folder extracted fs = .ok (fs2, rest, count)) :
    rest = extracted := by
  unfold PDFExtractor._do_save at h
  cases hloop : exportLoop wok folder kivySpec extracted
      (if folder ∈ fs.dirs then fs else fs.makedirs folder) 0 with
  | ok pr =>
      obtain ⟨fsx, c⟩ := pr
      rw [hloop] at h
      simp only [Except.ok.injEq, Prod.mk.injEq] at h
      rw [← h.2.1]
      exact ImageItem_map_mk_id extracted
  | error e =>
      rw [hloop] at h
      exact Except.noConfusion h

/-- C4 counterexample: with a decoder that fails exactly on bytes `[0]`, a
session of two images — the first decodable, the second not — produces no
selection window at all: the whole build fails with the decode error; the
decodable first image gets no tile, and no placeholder is rendered. -/
theorem C4_counterexample :
    build_selection_window
      (PILEnv.mk (fun b => if b = [0] then none else some (ImgDim.mk 1 1))
        (fun dm => [dm.w, dm.h]))
      [ImgRec.mk 1 1 [1], ImgRec.mk 1 2 [0]] = .error .unidentifiedImage := rfl

/-- C4 amended: on undecodable bytes each variant's renderer fails with the
decode error, and nothing catches it per image: one undecodable record makes
the PySimpleGUI selection-window build fail as a whole, so no placeholder is
rendered and the decodable records lose their tiles too. -/
theorem C4_amended_decode_error_aborts (env : PILEnv) (images : List ImgRec)
    (r : ImgRec) (hr : r ∈ images) (hdec : env.decode r.raw_bytes = none) :
    create_thumbnail env r.raw_bytes = .error .unidentifiedImage ∧
    ImageItem._get_texture env r.raw_bytes = .error .unidentifiedImage ∧
    MainApp._bytes_to_pixmap env r.raw_bytes = .error .unidentifiedImage ∧
    build_selection_window env images = .error .unidentifiedImage := by
  refine ⟨?_, ?_, ?_, build_selection_window_error env images r hr hdec⟩
  · unfold create_thumbnail
    rw [hdec]
  · unfold ImageItem._get_texture
    rw [hdec]
  · unfold MainApp._bytes_to_pixmap
    rw [hdec]

/-- C4 witness: the amended statement at a concrete decoder and session. -/
theorem C4_witness :
    (PILEnv.mk (fun _ => none) (fun _ => ([] : Bytes))).decode [0] = none ∧
    build_selection_window (PILEnv.mk (fun _ => none) (fun _ => ([] : Bytes)))
      [ImgRec.mk 1 1 [0]] = .error .unidentifiedImage :=
  ⟨rfl, (C4_amended_decode_error_aborts (PILEnv.mk (fun _ => none) (fun _ => ([] : Bytes)))
    [ImgRec.mk 1 1 [0]] (ImgRec.mk 1 1 [0]) (by decide) rfl).2.2.2⟩

/-- C3 counterexample: two selected thumbs; the OS rejects the first file's
write. The Qt exporter catches nothing: the export aborts with zero files
written — the remaining selected record is never written, and no
`(succeeded, attempted)` count is produced (the result is an error, not an
`ok` carrying counts). -/
theorem C3_counterexample :
    MainApp.export_selected (fun _ f => decide (f ≠ proNameDefault 1 1)) [['o']]
      proDefaultPattern
      [Thumb.mk true (proLabel 1 1) [1], Thumb.mk true (proLabel 1 2) [2]]
      (FS.mk [[['o']]] []) =
    .error (FS.mk [[['o']]] [], proNameDefault 1 1) := rfl

/-- C3 amended: a failing write is not caught per file: the exporter aborts at
the first failing selected record. Selected records before it are written, the
failing record and every selected record after it are not, and no
`(succeeded, attempted)` count is reported — the final `Exported
{count}/{total}` log of the Qt variant happens only when every write
succeeds. -/
theorem C3_amended_write_failure_aborts (wok : Dir → PyStr → Bool) (out : Dir)
    (pattern : PyStr) (t : Thumb) (l₁ l₂ : List Thumb) (fs : FS)
    (ht : t.checked = true) (hfail : wok out (proFname pattern t) = false)
    (hok : ∀ s ∈ l₁, s.checked = true → wok out (proFname pattern s) = true) :
    MainApp.export_selected wok out pattern (l₁ ++ t :: l₂) fs =
      .error (⟨fs.dirs, (selWrites out (proSpec pattern) l₁).reverse ++ fs.files⟩,
        proFname pattern t) := by
  unfold MainApp.export_selected
  rw [exportLoop_error wok out (proSpec pattern) t l₂ ht hfail l₁ fs 0 hok]
  rfl

/-- C3 witness: the amended statement at a concrete session — the first
selected thumb's write succeeds, the second fails, the export errors with
exactly the first file on disk. -/
theorem C3_witness :
    (Thumb.mk true (proLabel 1 2) [2]).checked = true ∧
    MainApp.export_selected (fun _ f => decide (f ≠ proNameDefault 1 2)) [['o']]
        proDefaultPattern
        ([Thumb.mk true (proLabel 1 1) [1]] ++ Thumb.mk true (proLabel 1 2) [2] :: [])
        (FS.mk [] []) =
      .error
        (⟨(FS.mk [] []).dirs,
          (selWrites [['o']] (proSpec proDefaultPattern)
            [Thumb.mk true (proLabel 1 1) [1]]).reverse ++ (FS.mk [] []).files⟩,
          proFname proDefaultPattern (Thumb.mk true (proLabel 1 2) [2])) :=
  ⟨rfl, C3_amended_write_failure_aborts (fun _ f => decide (f ≠ proNameDefault 1 2)) [['o']]
    proDefaultPattern (Thumb.mk true (proLabel 1 2) [2])
    [Thumb.mk true (proLabel 1 1) [1]] [] (FS.mk [] []) rfl (by decide) (by decide)⟩

/-- The PySimpleGUI `Load` flow with an opened document reduces to the
makedirs-extract-check-download sequence. -/
theorem gui_main_ok (wok : Dir → PyStr → Bool) (pdf : PyStr) (out : Dir)
    (sel : Nat → Bool) (fs : FS) (doc : PDFDoc) (hpdf : pdf ≠ []) (hout : out ≠ []) :
    gui_main wok pdf true (.ok doc) out sel fs =
      (if extract_images_from_pdf doc = [] then GuiOutcome.noImagesPopup (fs.makedirs out)
       else
        match gui_download wok out (extract_images_from_pdf doc) sel (fs.makedirs out) with
        | .ok (fs2, count) => .donePopup fs2 count
        | .error (fs2, fname) => .errPopup fs2 ( "Unexpected error: ".toList ++ fname)) := by
  unfold gui_main
  rw [if_neg (by simp [hpdf, hout]), if_neg (by simp)]

theorem gui_main_dirs (wok : Dir → PyStr → Bool) (pdf : PyStr) (doc : PDFDoc) (out : Dir)
    (sel : Nat → Bool) (fs : FS) (hpdf : pdf ≠ []) (hout : out ≠ []) :
    ∀ d ∈ dirPrefixes out, d ∈ (gui_main wok pdf true (.ok doc) out sel fs).getFS.dirs := by
  intro d hd
  rw [gui_main_ok wok pdf out sel fs doc hpdf hout]
  by_cases himg : extract_images_from_pdf doc = []
  · rw [if_pos himg]
    exact List.mem_append_left _ hd
  · rw [if_neg himg]
    cases hdl : gui_download wok out (extract_images_from_pdf doc) sel (fs.makedirs out) with
    | ok pr =>
        obtain ⟨fs2, c⟩ := pr
        have hdirs := exportLoop_dirs wok out (guiSpec sel)
          (extract_images_from_pdf doc).enum (fs.makedirs out) 0
        unfold gui_download at hdl
        rw [hdl] at hdirs
        show d ∈ fs2.dirs
        rw [show fs2.dirs = (fs.makedirs out).dirs from hdirs]
        exact List.mem_append_left _ hd
    | error pr =>
        obtain ⟨fs2, fname⟩ := pr
        have hdirs := exportLoop_dirs wok out (guiSpec sel)
          (extract_images_from_pdf doc).enum (fs.makedirs out) 0
        unfold gui_download at hdl
        rw [hdl] at hdirs
        show d ∈ fs2.dirs
        rw [show fs2.dirs = (fs.makedirs out).dirs from hdirs]
        exact List.mem_append_left _ hd

theorem kivy_do_save_dirs (wok : Dir → PyStr → Bool) (folder : Dir)
    (items : List ImageItem) (fsk : FS) (hmiss : folder ∉ fsk.dirs) :
    ∀ d ∈ dirPrefixes folder,
      d ∈ (kivyResultFS (PDFExtractor._do_save wok folder items fsk)).dirs := by
  intro d hd
  unfold PDFExtractor._do_save
  rw [if_neg hmiss]
  cases hloop : exportLoop wok folder kivySpec items (fsk.makedirs folder) 0 with
  | ok pr =>
      obtain ⟨fsx, c⟩ := pr
      have hdirs := exportLoop_dirs wok folder kivySpec items (fsk.makedirs folder) 0
      rw [hloop] at hdirs
      show d ∈ fsx.dirs
      rw [show fsx.dirs = (fsk.makedirs folder).dirs from hdirs]
      exact List.mem_append_left _ hd
  | error e =>
      obtain ⟨fsx, msg⟩ := e
      have hdirs := exportLoop_dirs wok folder kivySpec items (fsk.makedirs folder) 0
      rw [hloop] at hdirs
      show d ∈ fsx.dirs
      rw [show fsx.dirs = (fsk.makedirs folder).dirs from hdirs]
      exact List.mem_append_left _ hd

theorem pro_export_dirs (wok : Dir → PyStr → Bool) (out : Dir) (pattern : PyStr)
    (thumbs : List Thumb) (fsp : FS) :
    (proResultFS (MainApp.export_selected wok out pattern thumbs fsp)).dirs = fsp.dirs := by
  unfold MainApp.export_selected
  cases hloop : exportLoop wok out (proSpec pattern) thumbs fsp 0 with
  | ok pr =>
      obtain ⟨fsx, c⟩ := pr
      have hdirs := exportLoop_dirs wok out (proSpec pattern) thumbs fsp 0
      rw [hloop] at hdirs
      exact hdirs
  | error e =>
      have hdirs := exportLoop_dirs wok out (proSpec pattern) thumbs fsp 0
      rw [hloop] at hdirs
      exact hdirs

/-- C9 counterexample: the Qt exporter performs no directory creation: on a
filesystem with no directories and the nonexistent destination `o`, exporting
one selected thumb leaves the directory set empty — the destination was never
created. -/
theorem C9_counterexample :
    MainApp.export_selected (fun _ _ => true) [['o']] proDefaultPattern
        [Thumb.mk true (proLabel 1 1) [5]] (FS.mk [] []) =
      .ok (FS.mk [] [([['o']], proNameDefault 1 1, [5])], 1, 1) ∧
    ([['o']] : Dir) ∉ (FS.mk [] [] : FS).dirs := by
  constructor
  · rfl
  · simp

/-- C9 amended: the PySimpleGUI variant creates the output directory with all
intermediate segments during `Load`, before any write, and the Kivy variant
creates it inside `_do_save` when it does not exist; the Qt variant never
creates directories (its directory dialog offers existing ones), leaving the
filesystem's directory set unchanged. -/
theorem C9_amended_directory_creation
    (wok : Dir → PyStr → Bool) (pdf : PyStr) (doc : PDFDoc) (out : Dir)
    (sel : Nat → Bool) (fs : FS) (hpdf : pdf ≠ []) (hout : out ≠ [])
    (folder : Dir) (items : List ImageItem) (fsk : FS) (hmiss : folder ∉ fsk.dirs)
    (pattern : PyStr) (thumbs : List Thumb) (fsp : FS) :
    (∀ d ∈ dirPrefixes out, d ∈ (gui_main wok pdf true (.ok doc) out sel fs).getFS.dirs) ∧
    (∀ d ∈ dirPrefixes folder,
      d ∈ (kivyResultFS (PDFExtractor._do_save wok folder items fsk)).dirs) ∧
    (proResultFS (MainApp.export_selected wok out pattern thumbs fsp)).dirs = fsp.dirs :=
  ⟨gui_main_dirs wok pdf doc out sel fs hpdf hout,
    kivy_do_save_dirs wok folder items fsk hmiss,
    pro_export_dirs wok out pattern thumbs fsp⟩

/-- C9 witness: the amended statement at concrete inputs — a two-segment
output directory `o/s` is created with its intermediate segment `o` by the
PySimpleGUI flow. -/
theorem C9_witness :
    (['a'] : PyStr) ≠ [] ∧
    [['o']] ∈ (gui_main (fun _ _ => true) ['a'] true
      (.ok (PDFDoc.mk [] (fun _ => []))) [['o'], ['s']] (fun _ => true)
      (FS.mk [] [])).getFS.dirs :=
  ⟨by decide,
    (C9_amended_directory_creation (fun _ _ => true) ['a'] (PDFDoc.mk [] (fun _ => []))
      [['o'], ['s']] (fun _ => true) (FS.mk [] []) (by decide) (by decide)
      [['z']] [] (FS.mk [] []) (by simp) [] [] (FS.mk [] [])).1
      [['o']] (by decide)⟩

/-- C10 witness: a concrete successful save hands back the session unchanged. -/
theorem C10_witness :
    PDFExtractor._do_save (fun _ _ => true) [['o']]
        [ImageItem.mk [1] (kivyName 1 1) true] (FS.mk [[['o']]] []) =
      .ok (FS.mk [[['o']]] [([['o']], kivyName 1 1, [1])],
        [ImageItem.mk [1] (kivyName 1 1) true], 1) ∧
    ([ImageItem.mk [1] (kivyName 1 1) true] : List ImageItem) =
      [ImageItem.mk [1] (kivyName 1 1) true] :=
  ⟨rfl, C10_export_preserves_session (fun _ _ => true) [['o']]
    [ImageItem.mk [1] (kivyName 1 1) true] (FS.mk [[['o']]] [])
    (FS.mk [[['o']]] [([['o']], kivyName 1 1, [1])])
    [ImageItem.mk [1] (kivyName 1 1) true] 1 rfl⟩

/-- C5 witness: a two-page PDF with no images yields the empty session and the
`No images found.` popup. -/
theorem C5_witness :
    (∀ pg ∈ ([[], []] : List (List Nat)), pg = []) ∧
    extract_images_from_pdf (PDFDoc.mk [[], []] (fun _ => [])) = [] ∧
    gui_main (fun _ _ => true) ['a'] true (.ok (PDFDoc.mk [[], []] (fun _ => [])))
      [['o']] (fun _ => false) (FS.mk [] []) =
      .noImagesPopup ((FS.mk [] [] : FS).makedirs [['o']]) :=
  ⟨by decide,
    (C5_zero_images_empty_session (PDFDoc.mk [[], []] (fun _ => [])) (by decide)
      (fun _ _ => true) ['a'] [['o']] (fun _ => false) (FS.mk [] [])
      (by decide) (by decide)).1,
    (C5_zero_images_empty_session (PDFDoc.mk [[], []] (fun _ => [])) (by decide)
      (fun _ _ => true) ['a'] [['o']] (fun _ => false) (FS.mk [] [])
      (by decide) (by decide)).2.1⟩

/-- C6 witness: exporting only the record `(1, 2)` through the PySimpleGUI
download loop writes exactly `img_p1_i2.png` with the record's bytes. -/
theorem C6_witness :
    ([['k']] : Dir) ∈ (FS.mk [[['k']]] [] : FS).dirs ∧
    gui_download (fun _ _ => true) [['o']] [ImgRec.mk 1 1 [7], ImgRec.mk 1 2 [8]]
        (fun idx => idx == 1) (FS.mk [] []) =
      .ok (⟨(FS.mk [] [] : FS).dirs,
        ([['o']], "img_p1_i2.png".toList, [8]) :: (FS.mk [] [] : FS).files⟩, 1) :=
  ⟨by decide,
    (C6_amended_default_filenames [['o']] [7] [8] (FS.mk [] []) [['k']]
      (FS.mk [[['k']]] []) (by decide)).1⟩

/-- C8: for every decodable image (positive dimensions) and every bounding box
with positive sides, `create_thumbnail` succeeds and outputs re-encoded bytes
decoding to an image that fits the box, with the aspect ratio preserved up to
the integer rounding of the scaled axis: the cross products `w'·H` and `h'·W`
differ by less than one rounding step (`max H W`); exact ratio preservation is
impossible for integer pixel sizes. -/
theorem C8_thumbnail_bounding_box (env : PILEnv)
    (henc : ∀ dm, env.decode (env.encodePNG dm) = some dm)
    (b : Bytes) (img : ImgDim) (hdec : env.decode b = some img)
    (hw : 1 ≤ img.w) (hh : 1 ≤ img.h) (x y : Nat) (hx : 1 ≤ x) (hy : 1 ≤ y) :
    ∃ outBytes dims, create_thumbnail env b (x, y) = .ok outBytes ∧
      env.decode outBytes = some dims ∧ dims.w ≤ x ∧ dims.h ≤ y ∧
      |(dims.w : ℚ) * (img.h : ℚ) - (dims.h : ℚ) * (img.w : ℚ)| <
        max (img.h : ℚ) (img.w : ℚ) := by
  obtain ⟨h1, h2, h3⟩ := thumbnailSize_spec img.w img.h x y hw hh hx hy
  refine ⟨env.encodePNG
      ⟨(thumbnailSize img.w img.h x y).1, (thumbnailSize img.w img.h x y).2⟩,
    ⟨(thumbnailSize img.w img.h x y).1, (thumbnailSize img.w img.h x y).2⟩,
    ?_, henc _, h1, h2, h3⟩
  unfold create_thumbnail
  rw [hdec]

/-- C8 witness: a 4×2 image in a 150×150 box through a codec that round-trips
dimensions. -/
theorem C8_witness :
    (PILEnv.mk
      (fun bs => match bs with | [w, h] => some (ImgDim.mk w h) | _ => none)
      (fun dm => [dm.w, dm.h])).decode [4, 2] = some (ImgDim.mk 4 2) ∧
    ∃ outBytes dims,
      create_thumbnail
        (PILEnv.mk
          (fun bs => match bs with | [w, h] => some (ImgDim.mk w h) | _ => none)
          (fun dm => [dm.w, dm.h])) [4, 2] (150, 150) = .ok outBytes ∧
      (PILEnv.mk
        (fun bs => match bs with | [w, h] => some (ImgDim.mk w h) | _ => none)
        (fun dm => [dm.w, dm.h])).decode outBytes = some dims ∧
      dims.w ≤ 150 ∧ dims.h ≤ 150 ∧
      |(dims.w : ℚ) * ((ImgDim.mk 4 2).h : ℚ) - (dims.h : ℚ) * ((ImgDim.mk 4 2).w : ℚ)| <
        max ((ImgDim.mk 4 2).h : ℚ) ((ImgDim.mk 4 2).w : ℚ) :=
  ⟨rfl,
    C8_thumbnail_bounding_box
      (PILEnv.mk
        (fun bs => match bs with | [w, h] => some (ImgDim.mk w h) | _ => none)
        (fun dm => [dm.w, dm.h]))
      (fun dm => rfl) [4, 2] (ImgDim.mk 4 2) rfl (by decide) (by decide)
      150 150 (by decide) (by decide)⟩

/-- C2: with every OS write succeeding, each exporter writes exactly one file
per selected record — K write operations under pairwise-distinct filenames —
and the file contents afterwards are byte-for-byte the records' `raw_bytes`
(no re-encoding): reading each selected record's file back yields exactly the
harvested bytes. Stated for all three variants on harvested sessions. -/
theorem C2_export_roundtrip (doc : PDFDoc) (wok : Dir → PyStr → Bool)
    (hwok : ∀ d f, wok d f = true) (out : Dir) (fs : FS) (sel : Nat → Bool)
    (folder : Dir) (fsk : FS) (hfolder : folder ∈ fsk.dirs)
    (flagsK flagsP : List Bool)
    (hlk : flagsK.length = (PDFExtractor.extract_images doc).length)
    (hlp : flagsP.length = (display_thumbs (ExtractThread.run doc)).length)
    (fsp : FS) :
    (gui_download wok out (extract_images_from_pdf doc) sel fs =
      .ok (⟨fs.dirs,
          (selWrites out (guiSpec sel) (extract_images_from_pdf doc).enum).reverse
            ++ fs.files⟩,
        ((extract_images_from_pdf doc).enum.filter (fun e => sel e.1)).length)) ∧
    (selWrites out (guiSpec sel) (extract_images_from_pdf doc).enum).length =
      ((extract_images_from_pdf doc).enum.filter (fun e => sel e.1)).length ∧
    ((selWrites out (guiSpec sel) (extract_images_from_pdf doc).enum).map
      (fun e => e.2.1)).Nodup ∧
    (∀ e ∈ (extract_images_from_pdf doc).enum, sel e.1 = true →
      FS.readFile
        ⟨fs.dirs,
          (selWrites out (guiSpec sel) (extract_images_from_pdf doc).enum).reverse
            ++ fs.files⟩
        out (guiName e.2.page_number e.2.image_index) = some e.2.raw_bytes) ∧
    (PDFExtractor._do_save wok folder
        (setToggles (PDFExtractor.extract_images doc) flagsK) fsk =
      .ok (⟨fsk.dirs,
          (selWrites folder kivySpec
            (setToggles (PDFExtractor.extract_images doc) flagsK)).reverse ++ fsk.files⟩,
        setToggles (PDFExtractor.extract_images doc) flagsK,
        ((setToggles (PDFExtractor.extract_images doc) flagsK).filter
          (fun it => it.checkbox_active)).length)) ∧
    ((selWrites folder kivySpec
        (setToggles (PDFExtractor.extract_images doc) flagsK)).map
      (fun e => e.2.1)).Nodup ∧
    (∀ it ∈ setToggles (PDFExtractor.extract_images doc) flagsK,
      it.checkbox_active = true →
      FS.readFile
        ⟨fsk.dirs,
          (selWrites folder kivySpec
            (setToggles (PDFExtractor.extract_images doc) flagsK)).reverse ++ fsk.files⟩
        folder it.name = some it.img_data) ∧
    (MainApp.export_selected wok out proDefaultPattern
        (setChecks (display_thumbs (ExtractThread.run doc)) flagsP) fsp =
      .ok (⟨fsp.dirs,
          (selWrites out (proSpec proDefaultPattern)
            (setChecks (display_thumbs (ExtractThread.run doc)) flagsP)).reverse
            ++ fsp.files⟩,
        ((setChecks (display_thumbs (ExtractThread.run doc)) flagsP).filter
          (fun t => t.checked)).length,
        ((setChecks (display_thumbs (ExtractThread.run doc)) flagsP).filter
          (fun t => t.checked)).length)) ∧
    ((selWrites out (proSpec proDefaultPattern)
        (setChecks (display_thumbs (ExtractThread.run doc)) flagsP)).map
      (fun e => e.2.1)).Nodup ∧
    (∀ t ∈ setChecks (display_thumbs (ExtractThread.run doc)) flagsP, t.checked = true →
      FS.readFile
        ⟨fsp.dirs,
          (selWrites out (proSpec proDefaultPattern)
            (setChecks (display_thumbs (ExtractThread.run doc)) flagsP)).reverse
            ++ fsp.files⟩
        out (proFname proDefaultPattern t) = some t.data) := by
  have hnnG := gui_selWrites_names_nodup doc sel out
  have hnnK := kivy_selWrites_names_nodup doc flagsK folder hlk
  have hnnP := pro_selWrites_names_nodup doc flagsP out hlp
  refine ⟨?_, selWrites_length out (guiSpec sel) (extract_images_from_pdf doc).enum,
    hnnG, ?_, ?_, hnnK, ?_, ?_, hnnP, ?_⟩
  · have hok := exportLoop_ok wok out (guiSpec sel) (extract_images_from_pdf doc).enum
      fs 0 (fun a _ _ => hwok out ((guiSpec sel).fname a))
    unfold gui_download
    rw [hok, Nat.zero_add]
    rfl
  · have hnn := hnnG
    rw [selWrites_map_name] at hnn
    exact export_readFile out (guiSpec sel) (extract_images_from_pdf doc).enum fs hnn
  · have hok := exportLoop_ok wok folder kivySpec
      (setToggles (PDFExtractor.extract_images doc) flagsK) fsk 0
      (fun a _ _ => hwok folder (kivySpec.fname a))
    unfold PDFExtractor._do_save
    rw [if_pos hfolder, hok]
    simp only [Nat.zero_add, ImageItem_map_mk_id]
    rfl
  · have hnn := hnnK
    rw [selWrites_map_name] at hnn
    exact export_readFile folder kivySpec
      (setToggles (PDFExtractor.extract_images doc) flagsK) fsk hnn
  · have hok := exportLoop_ok wok out (proSpec proDefaultPattern)
      (setChecks (display_thumbs (ExtractThread.run doc)) flagsP) fsp 0
      (fun a _ _ => hwok out ((proSpec proDefaultPattern).fname a))
    unfold MainApp.export_selected
    rw [hok]
    simp only [Nat.zero_add]
    rfl
  · have hnn := hnnP
    rw [selWrites_map_name] at hnn
    exact export_readFile out (proSpec proDefaultPattern)
      (setChecks (display_thumbs (ExtractThread.run doc)) flagsP) fsp hnn

/-- C2 witness: one-record session, everything selected, through the
PySimpleGUI download loop. -/
theorem C2_witness :
    ((fun (_ : Dir) (_ : PyStr) => true) [['o']] [] = true) ∧
    gui_download (fun _ _ => true) [['o']]
        (extract_images_from_pdf (PDFDoc.mk [[5]] (fun _ => [9]))) (fun _ => true)
        (FS.mk [] []) =
      .ok (⟨(FS.mk [] [] : FS).dirs,
          (selWrites [['o']] (guiSpec (fun _ => true))
            (extract_images_from_pdf (PDFDoc.mk [[5]] (fun _ => [9]))).enum).reverse
            ++ (FS.mk [] [] : FS).files⟩,
        ((extract_images_from_pdf (PDFDoc.mk [[5]] (fun _ => [9]))).enum.filter
          (fun e => (fun _ => true) e.1)).length) :=
  ⟨rfl,
    (C2_export_roundtrip (PDFDoc.mk [[5]] (fun _ => [9])) (fun _ _ => true)
      (fun _ _ => rfl) [['o']] (FS.mk [] []) (fun _ => true) [['k']]
      (FS.mk [[['k']]] []) (by decide) [true] [true] (by decide) (by decide)
      (FS.mk [] [])).1⟩

end PDFIE
